import Mathlib

/-!
Verification development for the FireBet DogCoin economy bot (src/main.py).

The ledger (`balance.db`) is modelled as a partial map from user ids to
rows `(balance, holdings)`; Python's numbers are modelled as exact
rationals, and `round(x, 2)` as `round2` below (rounding the scaled value
to the nearest integer; the tie-breaking direction is irrelevant to every
property proved here).  Database reads/writes become pure state passing.
-/

namespace FireBet

/-- User ids, as in the `user_id INTEGER PRIMARY KEY` column. -/
abbrev UserId := ℤ

/-- A row of the `balance` table: `(balance, holdings)`. -/
abbrev Row := ℚ × ℚ

/-- The `balance` table: at most one row per user id (`none` = row absent). -/
abbrev Ledger := UserId → Option Row

/-- Python's `round(x, 2)`: round to 2 decimal places. -/
def round2 (x : ℚ) : ℚ := (round (x * 100) : ℚ) / 100

/-- `get_balance` from src/main.py: stored balance, or 0 if the row is absent. -/
def get_balance (l : Ledger) (u : UserId) : ℚ :=
  match l u with
  | some (b, _) => b
  | none => 0

/-- `get_holdings` from src/main.py: stored holdings, or 0 if the row is absent. -/
def get_holdings (l : Ledger) (u : UserId) : ℚ :=
  match l u with
  | some (_, h) => h
  | none => 0

/-- `update_balance` from src/main.py:
`new_balance = round(max((row[0] + amount) if row else amount, 0), 2)`,
updating the row if present, inserting `(user, new_balance, 0)` otherwise. -/
def update_balance (l : Ledger) (u : UserId) (amount : ℚ) : Ledger :=
  fun v =>
    if v = u then
      match l u with
      | some (b, h) => some (round2 (max (b + amount) 0), h)
      | none => some (round2 (max amount 0), 0)
    else l v

/-- `update_holdings` from src/main.py:
`new_holdings = round(max((row[0] + amount) if row else amount, 0), 2)`,
updating the row if present, inserting `(user, 0, new_holdings)` otherwise. -/
def update_holdings (l : Ledger) (u : UserId) (amount : ℚ) : Ledger :=
  fun v =>
    if v = u then
      match l u with
      | some (b, h) => some (b, round2 (max (h + amount) 0))
      | none => some (0, round2 (max amount 0))
    else l v

/-- Python's `str.lower()` as applied to the `action` argument.  (Core's
`String.toLower` is the same function but is defined by well-founded
recursion, which blocks evaluation inside proofs; this character-map
formulation is used instead.) -/
def pyLower (s : String) : String := ⟨s.data.map Char.toLower⟩

/-- The `amount` argument of `f.trade`, after the source's parsing step:
`max`/`all`, a successfully parsed float literal, or a string `float()`
rejects (the `except ValueError` branch). -/
inductive AmountSpec
  | maxAll
  | lit (x : ℚ)
  | unparsable
deriving DecidableEq

/-- The user-visible outcome of a `f.trade` invocation (which embed is sent). -/
inductive TradeMsg
  | invalidAction
  | invalidAmount
  | purchaseOk
  | insufficientFiat
  | saleOk
  | insufficientHoldings
deriving DecidableEq

/-- Lines 263-301 of src/main.py: clamp and round the resolved raw amount,
price the trade, and settle it.  `fiat`/`holdings` are the pre-read row
values (0 when the row is absent), exactly as read at lines 232-237. -/
def tradeCore (l : Ledger) (price : ℚ) (u : UserId) (action : String)
    (fiat holdings raw : ℚ) : Ledger × TradeMsg :=
  let trade_amount := round2 (max raw 0)
  let total_value := round2 (trade_amount * price)
  if pyLower action = "buy" then
    if fiat ≥ total_value ∧ trade_amount > 0 then
      (update_holdings (update_balance l u (-total_value)) u trade_amount,
        TradeMsg.purchaseOk)
    else (l, TradeMsg.insufficientFiat)
  else if pyLower action = "sell" then
    if holdings ≥ trade_amount ∧ trade_amount > 0 then
      (update_balance (update_holdings l u (-trade_amount)) u total_value,
        TradeMsg.saleOk)
    else (l, TradeMsg.insufficientHoldings)
  else (l, TradeMsg.invalidAction)

/-- The `trade` command of src/main.py (lines 224-303): read the caller's
row, resolve the raw amount (`max`/`all` → full capacity, literal → its
value, unparsable → rejection), then settle via `tradeCore`.  `price` is
the process-wide `current_price` read during the trade. -/
def trade (l : Ledger) (price : ℚ) (u : UserId) (action : String)
    (amount : AmountSpec) : Ledger × TradeMsg :=
  let fiat := get_balance l u
  let holdings := get_holdings l u
  match amount with
  | AmountSpec.maxAll =>
    if pyLower action = "buy" then tradeCore l price u action fiat holdings (fiat / price)
    else if pyLower action = "sell" then tradeCore l price u action fiat holdings holdings
    else (l, TradeMsg.invalidAction)
  | AmountSpec.lit x => tradeCore l price u action fiat holdings x
  | AmountSpec.unparsable => (l, TradeMsg.invalidAmount)

/-- The quantity a `trade` invocation settles at (`trade_amount` in the
source): the resolved raw amount clamped to non-negative and rounded to 2
decimals, or `none` on the invalid-amount / invalid-action early returns. -/
def resolvedQty (l : Ledger) (price : ℚ) (u : UserId) (action : String)
    (amount : AmountSpec) : Option ℚ :=
  match amount with
  | AmountSpec.maxAll =>
    if pyLower action = "buy" then some (round2 (max (get_balance l u / price) 0))
    else if pyLower action = "sell" then some (round2 (max (get_holdings l u) 0))
    else none
  | AmountSpec.lit x => some (round2 (max x 0))
  | AmountSpec.unparsable => none

/-- The user-visible outcome of a `f.give` invocation. -/
inductive GiveMsg
  | nonPositive
  | gaveOk
  | insufficientGive
  | devGrant
deriving DecidableEq

/-- The hard-coded privileged id at line 351 of src/main.py. -/
def privilegedId : UserId := 753409302680699021

/-- The `give` command of src/main.py (lines 340-370): reject non-positive
amounts; a non-privileged caller transfers only if their balance suffices;
the privileged caller credits the target unconditionally. -/
def give (l : Ledger) (caller target : UserId) (amount : ℤ) : Ledger × GiveMsg :=
  if amount ≤ 0 then (l, GiveMsg.nonPositive)
  else if caller ≠ privilegedId then
    if get_balance l caller ≥ (amount : ℚ) then
      (update_balance (update_balance l caller (-(amount : ℚ))) target (amount : ℚ),
        GiveMsg.gaveOk)
    else (l, GiveMsg.insufficientGive)
  else (update_balance l target (amount : ℚ), GiveMsg.devGrant)

/-- The `work` command of src/main.py (lines 326-337): credit the caller
with the drawn amount (`random.randint(1, 10)` is passed in as `earned`). -/
def work (l : Ledger) (u : UserId) (earned : ℚ) : Ledger :=
  update_balance l u earned

/-- One ledger-mutating operation of the command surface, for stating
invariants over arbitrary operation sequences. -/
inductive Op
  | updBal (u : UserId) (d : ℚ)
  | updHold (u : UserId) (d : ℚ)
  | doTrade (u : UserId) (price : ℚ) (action : String) (amount : AmountSpec)
  | doWork (u : UserId) (earned : ℚ)
  | doGive (caller target : UserId) (amount : ℤ)

/-- Apply one operation to the ledger (discarding the user-visible message). -/
def applyOp (l : Ledger) : Op → Ledger
  | Op.updBal u d => update_balance l u d
  | Op.updHold u d => update_holdings l u d
  | Op.doTrade u p a amt => (trade l p u a amt).1
  | Op.doWork u e => work l u e
  | Op.doGive c t a => (give l c t a).1

/-- Apply a sequence of operations, oldest first. -/
def applyOps (ops : List Op) (l : Ledger) : Ledger := ops.foldl applyOp l

/-- Well-formedness of a ledger state: every stored balance and holdings
value is non-negative. -/
def WF (l : Ledger) : Prop :=
  ∀ v, 0 ≤ get_balance l v ∧ 0 ≤ get_holdings l v

/-- The empty `balance` table. -/
def emptyLedger : Ledger := fun _ => none

/-- A concrete one-row table (user 1: balance 100, holdings 5), used to
evaluate the theorems on concrete states. -/
def sampleLedger : Ledger := fun v => if v = 1 then some (100, 5) else none

/-- Clamping of the tick adjustment at line 191 of src/main.py:
`adjustment = max(min(adjustment, 0.1), -0.1)`. -/
def clampAdj (a : ℚ) : ℚ := max (min a (1 / 10)) (-(1 / 10))

/-- The price produced by one tick of `update_price_with_ai` (line 193):
`new_price = max(round(current_price * (1 + adjustment), 2), 0.01)`,
with the adjustment clamped to `[-0.10, 0.10]`.  `a` is the raw
(pre-clamp) sum of investor activity, momentum and large-trade impact. -/
def tickPrice (p a : ℚ) : ℚ := max (round2 (p * (1 + clampAdj a))) (1 / 100)

/-- Lines 178-181 of src/main.py, on the already-filtered list of valid
prices (descending timestamp order, newest first): zero when fewer than
2 samples or the last (oldest) sample is zero, otherwise the relative
change `(prices[0] - prices[-1]) / prices[-1]`. -/
def recent_trend (prices : List ℚ) : ℚ :=
  if prices.length < 2 ∨ prices.getLastD 0 = 0 then 0
  else (prices.headD 0 - prices.getLastD 0) / prices.getLastD 0

/-- Line 175 of src/main.py: keep the non-null prices of the fetched rows. -/
def validPrices (data : List (Option ℚ)) : List ℚ := data.filterMap id

/-- A row of the `prices` table of crypto.db. -/
structure Sample where
  ts : String
  price : ℚ
  sym : String
deriving DecidableEq

/-- The process-wide `current_price`, 500.0 at startup. -/
def startPrice : ℚ := 500

/-- The seeding step of the crypto.db setup (lines 49-55 of src/main.py):
if no `dogcoin` row exists, insert one at the current price (500.0 at
startup, when this code runs). -/
def seedCryptoDb (series : List Sample) (ts : String) : List Sample :=
  if (series.filter (fun s => s.sym = "dogcoin")).length = 0 then
    series ++ [⟨ts, startPrice, "dogcoin"⟩]
  else series

/-- Modelled from the spec: the privileged `reset`/`rbal`/`rst` command is
absent from src/main.py (it lives in the repository's other near-identical
copy); per §4.1 it sets the target's balance to 0 "by applying a delta
equal to its negation". -/
def reset_balance (l : Ledger) (target : UserId) : Ledger :=
  update_balance l target (-(get_balance l target))

/-- Modelled from the spec: the privileged `resetholdings`/`rhold`/`rsthold`
command is absent from src/main.py (it lives in the repository's other
near-identical copy); per §4.1 it sets the target's holdings to 0 "by
applying a delta equal to its negation". -/
def reset_holdings (l : Ledger) (target : UserId) : Ledger :=
  update_holdings l target (-(get_holdings l target))

/-! ### Basic lemmas about rounding and the row updates -/

lemma round2_nonneg {x : ℚ} (hx : 0 ≤ x) : 0 ≤ round2 x := by
  unfold round2
  have h1 : (0 : ℤ) ≤ round (x * 100) := by
    rw [round_eq]
    exact Int.floor_nonneg.mpr (by positivity)
  have h1q : (0 : ℚ) ≤ (round (x * 100) : ℚ) := by exact_mod_cast h1
  positivity

lemma round2_zero : round2 0 = 0 := by
  simp [round2]

lemma abs_round2_sub (x : ℚ) : |round2 x - x| ≤ 1 / 200 := by
  unfold round2
  have h := abs_sub_round (x * 100)
  rw [abs_sub_comm] at h
  have : (round (x * 100) : ℚ) / 100 - x = ((round (x * 100) : ℚ) - x * 100) / 100 := by
    ring
  rw [this, abs_div]
  rw [show |(100 : ℚ)| = 100 by norm_num]
  linarith [h]

lemma update_balance_apply_ne (l : Ledger) (u : UserId) (d : ℚ) {v : UserId}
    (hv : v ≠ u) : update_balance l u d v = l v := by
  simp [update_balance, hv]

lemma update_holdings_apply_ne (l : Ledger) (u : UserId) (d : ℚ) {v : UserId}
    (hv : v ≠ u) : update_holdings l u d v = l v := by
  simp [update_holdings, hv]

lemma get_balance_update_balance_self (l : Ledger) (u : UserId) (d : ℚ) :
    get_balance (update_balance l u d) u = round2 (max (get_balance l u + d) 0) := by
  unfold get_balance update_balance
  cases h : l u with
  | none => simp [h]
  | some bh => cases bh with
    | mk b hld => simp [h]

lemma get_holdings_update_holdings_self (l : Ledger) (u : UserId) (d : ℚ) :
    get_holdings (update_holdings l u d) u = round2 (max (get_holdings l u + d) 0) := by
  unfold get_holdings update_holdings
  cases h : l u with
  | none => simp [h]
  | some bh => cases bh with
    | mk b hld => simp [h]

lemma get_holdings_update_balance (l : Ledger) (u : UserId) (d : ℚ) (v : UserId) :
    get_holdings (update_balance l u d) v = get_holdings l v := by
  unfold get_holdings update_balance
  by_cases hv : v = u
  · subst hv
    cases h : l v with
    | none => simp [h]
    | some bh => cases bh with
      | mk b hld => simp [h]
  · simp [hv]

lemma get_balance_update_holdings (l : Ledger) (u : UserId) (d : ℚ) (v : UserId) :
    get_balance (update_holdings l u d) v = get_balance l v := by
  unfold get_balance update_holdings
  by_cases hv : v = u
  · subst hv
    cases h : l v with
    | none => simp [h]
    | some bh => cases bh with
      | mk b hld => simp [h]
  · simp [hv]

lemma get_balance_update_balance_ne (l : Ledger) (u : UserId) (d : ℚ) {v : UserId}
    (hv : v ≠ u) : get_balance (update_balance l u d) v = get_balance l v := by
  unfold get_balance
  rw [update_balance_apply_ne l u d hv]

lemma get_holdings_update_holdings_ne (l : Ledger) (u : UserId) (d : ℚ) {v : UserId}
    (hv : v ≠ u) : get_holdings (update_holdings l u d) v = get_holdings l v := by
  unfold get_holdings
  rw [update_holdings_apply_ne l u d hv]

/-! ### Preservation of the non-negativity invariant -/

lemma WF_update_balance (l : Ledger) (u : UserId) (d : ℚ) (h : WF l) :
    WF (update_balance l u d) := by
  intro v
  constructor
  · by_cases hv : v = u
    · subst hv
      rw [get_balance_update_balance_self]
      exact round2_nonneg (le_max_right _ _)
    · rw [get_balance_update_balance_ne l u d hv]
      exact (h v).1
  · rw [get_holdings_update_balance]
    exact (h v).2

lemma WF_update_holdings (l : Ledger) (u : UserId) (d : ℚ) (h : WF l) :
    WF (update_holdings l u d) := by
  intro v
  constructor
  · rw [get_balance_update_holdings]
    exact (h v).1
  · by_cases hv : v = u
    · subst hv
      rw [get_holdings_update_holdings_self]
      exact round2_nonneg (le_max_right _ _)
    · rw [get_holdings_update_holdings_ne l u d hv]
      exact (h v).2

lemma WF_tradeCore (l : Ledger) (p : ℚ) (u : UserId) (a : String)
    (f hd raw : ℚ) (h : WF l) : WF (tradeCore l p u a f hd raw).1 := by
  unfold tradeCore
  dsimp only
  split_ifs
  · exact WF_update_holdings _ _ _ (WF_update_balance _ _ _ h)
  · exact h
  · exact WF_update_balance _ _ _ (WF_update_holdings _ _ _ h)
  · exact h
  · exact h

lemma WF_trade (l : Ledger) (p : ℚ) (u : UserId) (a : String)
    (amt : AmountSpec) (h : WF l) : WF (trade l p u a amt).1 := by
  unfold trade
  cases amt with
  | maxAll =>
    dsimp only
    split_ifs
    · exact WF_tradeCore _ _ _ _ _ _ _ h
    · exact WF_tradeCore _ _ _ _ _ _ _ h
    · exact h
  | lit x => exact WF_tradeCore _ _ _ _ _ _ _ h
  | unparsable => exact h

lemma WF_give (l : Ledger) (c t : UserId) (amt : ℤ) (h : WF l) :
    WF (give l c t amt).1 := by
  unfold give
  split_ifs
  · exact h
  · exact WF_update_balance _ _ _ (WF_update_balance _ _ _ h)
  · exact h
  · exact WF_update_balance _ _ _ h

lemma WF_applyOp (l : Ledger) (op : Op) (h : WF l) : WF (applyOp l op) := by
  cases op with
  | updBal u d => exact WF_update_balance _ _ _ h
  | updHold u d => exact WF_update_holdings _ _ _ h
  | doTrade u p a amt => exact WF_trade _ _ _ _ _ h
  | doWork u e => exact WF_update_balance _ _ _ h
  | doGive c t a => exact WF_give _ _ _ _ h

lemma WF_applyOps (ops : List Op) (l : Ledger) (h : WF l) :
    WF (applyOps ops l) := by
  induction ops generalizing l with
  | nil => exact h
  | cons op ops ih => exact ih _ (WF_applyOp l op h)

lemma WF_emptyLedger : WF emptyLedger := by
  intro v
  constructor <;> simp [emptyLedger, get_balance, get_holdings]

/-! ### Reduction of `trade` to `tradeCore` at a resolved quantity -/

lemma trade_eq_tradeCore_of_resolved (l : Ledger) (price : ℚ) (u : UserId)
    (action : String) (amount : AmountSpec) (q : ℚ)
    (hq : resolvedQty l price u action amount = some q) :
    ∃ raw, trade l price u action amount =
        tradeCore l price u action (get_balance l u) (get_holdings l u) raw ∧
      q = round2 (max raw 0) := by
  cases amount with
  | maxAll =>
    unfold resolvedQty at hq
    unfold trade
    dsimp only at hq ⊢
    by_cases hb : pyLower action = "buy"
    · rw [if_pos hb] at hq ⊢
      exact ⟨get_balance l u / price, rfl, (Option.some.inj hq).symm⟩
    · rw [if_neg hb] at hq ⊢
      by_cases hs : pyLower action = "sell"
      · rw [if_pos hs] at hq ⊢
        exact ⟨get_holdings l u, rfl, (Option.some.inj hq).symm⟩
      · rw [if_neg hs] at hq
        exact absurd hq (by simp)
  | lit x =>
    unfold resolvedQty at hq
    dsimp only at hq
    exact ⟨x, rfl, (Option.some.inj hq).symm⟩
  | unparsable =>
    exact absurd hq (by simp [resolvedQty])

lemma tradeCore_buy (l : Ledger) (price : ℚ) (u : UserId) (action : String)
    (f hd raw : ℚ) (hact : pyLower action = "buy") :
    tradeCore l price u action f hd raw =
      if f ≥ round2 (round2 (max raw 0) * price) ∧ round2 (max raw 0) > 0 then
        (update_holdings
            (update_balance l u (-(round2 (round2 (max raw 0) * price)))) u
            (round2 (max raw 0)),
          TradeMsg.purchaseOk)
      else (l, TradeMsg.insufficientFiat) := by
  unfold tradeCore
  dsimp only
  rw [if_pos hact]

lemma tradeCore_sell (l : Ledger) (price : ℚ) (u : UserId) (action : String)
    (f hd raw : ℚ) (hact : pyLower action = "sell") :
    tradeCore l price u action f hd raw =
      if hd ≥ round2 (max raw 0) ∧ round2 (max raw 0) > 0 then
        (update_balance (update_holdings l u (-(round2 (max raw 0)))) u
            (round2 (round2 (max raw 0) * price)),
          TradeMsg.saleOk)
      else (l, TradeMsg.insufficientHoldings) := by
  unfold tradeCore
  dsimp only
  rw [if_neg (by rw [hact]; decide), if_pos hact]

/-! ### Claim theorems -/

/-- C1.  A `buy` trade with resolved quantity `q` and
`total_value = round(q * current_price, 2)`: when the pre-trade balance
covers `total_value` and `q > 0`, it succeeds, debiting the balance by
`total_value` and crediting the holdings by `q` (to 2 decimals); otherwise
it reports insufficient funds and returns the ledger unchanged. -/
theorem trade_buy_correct (l : Ledger) (price : ℚ) (u : UserId)
    (action : String) (amount : AmountSpec) (q tv : ℚ)
    (hact : pyLower action = "buy")
    (hq : resolvedQty l price u action amount = some q)
    (htv : tv = round2 (q * price))
    (hH : 0 ≤ get_holdings l u) :
    (get_balance l u ≥ tv ∧ q > 0 →
      (trade l price u action amount).2 = TradeMsg.purchaseOk ∧
      get_balance (trade l price u action amount).1 u =
        round2 (get_balance l u - tv) ∧
      get_holdings (trade l price u action amount).1 u =
        round2 (get_holdings l u + q)) ∧
    (¬(get_balance l u ≥ tv ∧ q > 0) →
      trade l price u action amount = (l, TradeMsg.insufficientFiat)) := by
  obtain ⟨raw, htr, hqr⟩ :=
    trade_eq_tradeCore_of_resolved l price u action amount q hq
  rw [htr, tradeCore_buy l price u action _ _ raw hact, ← hqr, ← htv]
  constructor
  · intro hcond
    rw [if_pos hcond]
    refine ⟨rfl, ?_, ?_⟩
    · rw [get_balance_update_holdings, get_balance_update_balance_self]
      congr 1
      rw [show get_balance l u + -tv = get_balance l u - tv by ring]
      exact max_eq_left (sub_nonneg.mpr hcond.1)
    · rw [get_holdings_update_holdings_self, get_holdings_update_balance]
      congr 1
      exact max_eq_left (add_nonneg hH (le_of_lt hcond.2))
  · intro hcond
    rw [if_neg hcond]

/-- Witness for C1: the spec's own example — balance 100, price 10,
`f.trade buy 10` resolves quantity 10.00, total 100.00, succeeds, leaving
balance 0 and holdings 10. -/
theorem trade_buy_correct_witness :
    (pyLower "buy" = "buy" ∧
      resolvedQty sampleLedger 10 1 "buy" (AmountSpec.lit 10) = some 10 ∧
      (100 : ℚ) = round2 (10 * 10) ∧
      (0 : ℚ) ≤ get_holdings sampleLedger 1 ∧
      get_balance sampleLedger 1 ≥ (100 : ℚ) ∧ (10 : ℚ) > 0) ∧
    (trade sampleLedger 10 1 "buy" (AmountSpec.lit 10)).2 = TradeMsg.purchaseOk ∧
    get_balance (trade sampleLedger 10 1 "buy" (AmountSpec.lit 10)).1 1 =
      round2 (get_balance sampleLedger 1 - 100) ∧
    get_holdings (trade sampleLedger 10 1 "buy" (AmountSpec.lit 10)).1 1 =
      round2 (get_holdings sampleLedger 1 + 10) :=
  ⟨⟨by decide, by simp only [resolvedQty]; norm_num [round2, round_eq],
      by norm_num [round2, round_eq], by norm_num [get_holdings, sampleLedger],
      by norm_num [get_balance, sampleLedger], by norm_num⟩,
    (trade_buy_correct sampleLedger 10 1 "buy" (AmountSpec.lit 10) 10 100
        (by decide) (by simp only [resolvedQty]; norm_num [round2, round_eq])
        (by norm_num [round2, round_eq])
        (by norm_num [get_holdings, sampleLedger])).1
      ⟨by norm_num [get_balance, sampleLedger], by norm_num⟩⟩

/-- C2.  A `sell` trade with resolved quantity `q` and
`total_value = round(q * current_price, 2)`: when the pre-trade holdings
cover `q` and `q > 0`, it succeeds, debiting the holdings by `q` and
crediting the balance by `total_value` (to 2 decimals); otherwise it
reports insufficient holdings and returns the ledger unchanged. -/
theorem trade_sell_correct (l : Ledger) (price : ℚ) (u : UserId)
    (action : String) (amount : AmountSpec) (q tv : ℚ)
    (hact : pyLower action = "sell")
    (hq : resolvedQty l price u action amount = some q)
    (htv : tv = round2 (q * price))
    (hB : 0 ≤ get_balance l u) (hp : 0 ≤ price) :
    (get_holdings l u ≥ q ∧ q > 0 →
      (trade l price u action amount).2 = TradeMsg.saleOk ∧
      get_holdings (trade l price u action amount).1 u =
        round2 (get_holdings l u - q) ∧
      get_balance (trade l price u action amount).1 u =
        round2 (get_balance l u + tv)) ∧
    (¬(get_holdings l u ≥ q ∧ q > 0) →
      trade l price u action amount = (l, TradeMsg.insufficientHoldings)) := by
  obtain ⟨raw, htr, hqr⟩ :=
    trade_eq_tradeCore_of_resolved l price u action amount q hq
  rw [htr, tradeCore_sell l price u action _ _ raw hact, ← hqr, ← htv]
  constructor
  · intro hcond
    rw [if_pos hcond]
    have htv0 : 0 ≤ tv := by
      rw [htv]
      exact round2_nonneg (mul_nonneg (le_of_lt hcond.2) hp)
    refine ⟨rfl, ?_, ?_⟩
    · rw [get_holdings_update_balance, get_holdings_update_holdings_self]
      congr 1
      rw [show get_holdings l u + -q = get_holdings l u - q by ring]
      exact max_eq_left (sub_nonneg.mpr hcond.1)
    · rw [get_balance_update_balance_self, get_balance_update_holdings]
      congr 1
      exact max_eq_left (add_nonneg hB htv0)
  · intro hcond
    rw [if_neg hcond]

/-- Witness for C2: holdings 5, price 10, `f.trade sell 2` succeeds,
leaving holdings 3 and balance 120. -/
theorem trade_sell_correct_witness :
    (pyLower "sell" = "sell" ∧
      resolvedQty sampleLedger 10 1 "sell" (AmountSpec.lit 2) = some 2 ∧
      (20 : ℚ) = round2 (2 * 10) ∧
      (0 : ℚ) ≤ get_balance sampleLedger 1 ∧ (0 : ℚ) ≤ (10 : ℚ) ∧
      get_holdings sampleLedger 1 ≥ (2 : ℚ) ∧ (2 : ℚ) > 0) ∧
    (trade sampleLedger 10 1 "sell" (AmountSpec.lit 2)).2 = TradeMsg.saleOk ∧
    get_holdings (trade sampleLedger 10 1 "sell" (AmountSpec.lit 2)).1 1 =
      round2 (get_holdings sampleLedger 1 - 2) ∧
    get_balance (trade sampleLedger 10 1 "sell" (AmountSpec.lit 2)).1 1 =
      round2 (get_balance sampleLedger 1 + 20) :=
  ⟨⟨by decide, by simp only [resolvedQty]; norm_num [round2, round_eq],
      by norm_num [round2, round_eq], by norm_num [get_balance, sampleLedger],
      by norm_num, by norm_num [get_holdings, sampleLedger], by norm_num⟩,
    (trade_sell_correct sampleLedger 10 1 "sell" (AmountSpec.lit 2) 2 20
        (by decide) (by simp only [resolvedQty]; norm_num [round2, round_eq])
        (by norm_num [round2, round_eq])
        (by norm_num [get_balance, sampleLedger]) (by norm_num)).1
      ⟨by norm_num [get_holdings, sampleLedger], by norm_num⟩⟩

/-- C10.  `update_balance` changes at most the balance field of the target
row — holdings of the target and every other user's row are untouched, and
a freshly created row has holdings 0 — and symmetrically for
`update_holdings`. -/
theorem update_frame (l : Ledger) (u : UserId) (d : ℚ) :
    (∀ v, v ≠ u →
      update_balance l u d v = l v ∧ update_holdings l u d v = l v) ∧
    (∀ v, get_holdings (update_balance l u d) v = get_holdings l v) ∧
    (∀ v, get_balance (update_holdings l u d) v = get_balance l v) ∧
    (l u = none → update_balance l u d u = some (round2 (max d 0), 0)) ∧
    (l u = none → update_holdings l u d u = some (0, round2 (max d 0))) := by
  refine ⟨fun v hv => ⟨update_balance_apply_ne l u d hv,
      update_holdings_apply_ne l u d hv⟩,
    fun v => get_holdings_update_balance l u d v,
    fun v => get_balance_update_holdings l u d v, ?_, ?_⟩
  · intro hnone
    simp [update_balance, hnone]
  · intro hnone
    simp [update_holdings, hnone]

/-- Witness for C10: updating user 2 (absent row) leaves user 1's row
untouched and creates user 2's row with the other field zero. -/
theorem update_frame_witness :
    ((1 : ℤ) ≠ 2 ∧ update_balance sampleLedger 2 7 1 = sampleLedger 1 ∧
      update_holdings sampleLedger 2 7 1 = sampleLedger 1) ∧
    (sampleLedger 2 = none ∧
      update_balance sampleLedger 2 7 2 = some (round2 (max 7 0), 0) ∧
      update_holdings sampleLedger 2 7 2 = some (0, round2 (max 7 0))) :=
  ⟨⟨by decide, ((update_frame sampleLedger 2 7).1 1 (by decide)).1,
      ((update_frame sampleLedger 2 7).1 1 (by decide)).2⟩,
    ⟨rfl, (update_frame sampleLedger 2 7).2.2.2.1 rfl,
      (update_frame sampleLedger 2 7).2.2.2.2 rfl⟩⟩

/-- C3.  Starting from any well-formed ledger, every sequence of ledger
operations (balance/holdings updates, trades, work, give) keeps every
stored balance and holdings non-negative; and `update_balance u (-X)`
with `X` at least the current balance leaves the balance exactly 0. -/
theorem ledger_nonneg (ops : List Op) (l : Ledger) (hWF : WF l) :
    WF (applyOps ops l) ∧
    ∀ u X, get_balance l u ≤ X →
      get_balance (update_balance l u (-X)) u = 0 := by
  refine ⟨WF_applyOps ops l hWF, ?_⟩
  intro u X hX
  rw [get_balance_update_balance_self]
  rw [show get_balance l u + -X = get_balance l u - X by ring]
  rw [max_eq_right (sub_nonpos.mpr hX), round2_zero]

/-- Witness for C3: a concrete operation sequence from the empty table
stays well-formed, and debiting 5 from a zero balance floors at 0. -/
theorem ledger_nonneg_witness :
    WF (applyOps [Op.doWork 1 7, Op.doTrade 1 500 "buy" (AmountSpec.lit 2),
      Op.doGive 1 2 3, Op.updHold 2 (-4)] emptyLedger) ∧
    get_balance emptyLedger 1 ≤ (5 : ℚ) ∧
    get_balance (update_balance emptyLedger 1 (-5)) 1 = 0 :=
  ⟨(ledger_nonneg [Op.doWork 1 7, Op.doTrade 1 500 "buy" (AmountSpec.lit 2),
      Op.doGive 1 2 3, Op.updHold 2 (-4)] emptyLedger WF_emptyLedger).1,
    by norm_num [get_balance, emptyLedger],
    (ledger_nonneg [] emptyLedger WF_emptyLedger).2 1 5
      (by norm_num [get_balance, emptyLedger])⟩

/-- C4.  Every rejected trade — unparsable amount, unknown action,
insufficient funds, or insufficient holdings (which also covers
non-positive quantities) — returns the ledger exactly as it was: no
balance or holdings moves and no row is created. -/
theorem trade_rejected_frame (l : Ledger) (price : ℚ) (u : UserId)
    (action : String) (amount : AmountSpec)
    (h : (trade l price u action amount).2 = TradeMsg.invalidAmount ∨
      (trade l price u action amount).2 = TradeMsg.invalidAction ∨
      (trade l price u action amount).2 = TradeMsg.insufficientFiat ∨
      (trade l price u action amount).2 = TradeMsg.insufficientHoldings) :
    (trade l price u action amount).1 = l := by
  unfold trade tradeCore at h ⊢
  cases amount <;> dsimp only at h ⊢ <;> split_ifs at h ⊢ <;> simp_all

/-- Witness for C4: the spec's example — `f.trade sell 999` with holdings
5 is rejected with insufficient-holdings and the table is unchanged. -/
theorem trade_rejected_frame_witness :
    (trade sampleLedger 500 1 "sell" (AmountSpec.lit 999)).2 =
      TradeMsg.insufficientHoldings ∧
    (trade sampleLedger 500 1 "sell" (AmountSpec.lit 999)).1 = sampleLedger := by
  have hmsg : trade sampleLedger 500 1 "sell" (AmountSpec.lit 999) =
      (sampleLedger, TradeMsg.insufficientHoldings) := by
    show tradeCore sampleLedger 500 1 "sell" (get_balance sampleLedger 1)
      (get_holdings sampleLedger 1) 999 = _
    rw [tradeCore_sell _ _ _ _ _ _ _ (by decide),
      if_neg (by norm_num [get_holdings, sampleLedger, round2, round_eq])]
  exact ⟨by rw [hmsg],
    trade_rejected_frame sampleLedger 500 1 "sell" (AmountSpec.lit 999)
      (Or.inr (Or.inr (Or.inr (by rw [hmsg]))))⟩

/-- C7.  The `give` command: non-positive amounts are always rejected with
no state change; a non-privileged caller transfers only when their balance
covers the amount (debiting themselves, crediting the target), and is
rejected with no state change otherwise; the hard-coded privileged caller
credits the target with no balance check. -/
theorem give_correct (l : Ledger) (caller target : UserId) (amount : ℤ) :
    (amount ≤ 0 → give l caller target amount = (l, GiveMsg.nonPositive)) ∧
    (0 < amount → caller ≠ privilegedId →
      (get_balance l caller < (amount : ℚ) →
        give l caller target amount = (l, GiveMsg.insufficientGive)) ∧
      ((amount : ℚ) ≤ get_balance l caller →
        (give l caller target amount).2 = GiveMsg.gaveOk ∧
        (give l caller target amount).1 =
          update_balance (update_balance l caller (-(amount : ℚ))) target
            (amount : ℚ) ∧
        (caller ≠ target → 0 ≤ get_balance l target →
          get_balance (give l caller target amount).1 caller =
            round2 (get_balance l caller - (amount : ℚ)) ∧
          get_balance (give l caller target amount).1 target =
            round2 (get_balance l target + (amount : ℚ))))) ∧
    (0 < amount → caller = privilegedId →
      (give l caller target amount).2 = GiveMsg.devGrant ∧
      (give l caller target amount).1 = update_balance l target (amount : ℚ) ∧
      (0 ≤ get_balance l target →
        get_balance (give l caller target amount).1 target =
          round2 (get_balance l target + (amount : ℚ)))) := by
  refine ⟨?_, ?_, ?_⟩
  · intro h
    unfold give
    rw [if_pos h]
  · intro h0 hc
    unfold give
    rw [if_neg (not_le.mpr h0), if_pos hc]
    have ha : (0 : ℚ) < (amount : ℚ) := by exact_mod_cast h0
    constructor
    · intro hlt
      rw [if_neg (not_le.mpr hlt)]
    · intro hge
      rw [if_pos hge]
      refine ⟨rfl, rfl, ?_⟩
      intro hne hBt
      constructor
      · rw [get_balance_update_balance_ne _ _ _ hne,
          get_balance_update_balance_self,
          show get_balance l caller + -(amount : ℚ) =
            get_balance l caller - (amount : ℚ) by ring,
          max_eq_left (sub_nonneg.mpr hge)]
      · rw [get_balance_update_balance_self,
          get_balance_update_balance_ne _ _ _ (Ne.symm hne),
          max_eq_left (add_nonneg hBt (le_of_lt ha))]
  · intro h0 hpriv
    unfold give
    rw [if_neg (not_le.mpr h0), if_neg (not_ne_iff.mpr hpriv)]
    have ha : (0 : ℚ) < (amount : ℚ) := by exact_mod_cast h0
    refine ⟨rfl, rfl, ?_⟩
    intro hBt
    rw [get_balance_update_balance_self,
      max_eq_left (add_nonneg hBt (le_of_lt ha))]

/-- Witness for C7: user 1 (balance 100) gives 30 to user 2, ending at 70
and 30; a gift of -1 is rejected; the privileged id mints 50 for user 2
with no balance check. -/
theorem give_correct_witness :
    (give sampleLedger 1 2 (-1) = (sampleLedger, GiveMsg.nonPositive)) ∧
    (get_balance (give sampleLedger 1 2 30).1 1 =
        round2 (get_balance sampleLedger 1 - 30) ∧
      get_balance (give sampleLedger 1 2 30).1 2 =
        round2 (get_balance sampleLedger 2 + 30)) ∧
    ((give sampleLedger privilegedId 2 50).2 = GiveMsg.devGrant ∧
      get_balance (give sampleLedger privilegedId 2 50).1 2 =
        round2 (get_balance sampleLedger 2 + 50)) :=
  ⟨(give_correct sampleLedger 1 2 (-1)).1 (by decide),
    (((give_correct sampleLedger 1 2 30).2.1 (by decide) (by decide)).2
        (by norm_num [get_balance, sampleLedger])).2.2 (by decide)
      (by norm_num [get_balance, sampleLedger]),
    ⟨((give_correct sampleLedger privilegedId 2 50).2.2 (by decide) rfl).1,
      ((give_correct sampleLedger privilegedId 2 50).2.2 (by decide) rfl).2.2
        (by norm_num [get_balance, sampleLedger])⟩⟩

/-- C8.  Seeding on an empty price series inserts exactly one sample, at
price 500.00; re-running the seeding logic on the result inserts nothing
further. -/
theorem seed_once (ts ts2 : String) :
    seedCryptoDb [] ts = [⟨ts, 500, "dogcoin"⟩] ∧
    seedCryptoDb (seedCryptoDb [] ts) ts2 = seedCryptoDb [] ts := by
  constructor
  · simp [seedCryptoDb, startPrice]
  · simp [seedCryptoDb]

/-- C9.  The privileged reset operations zero the target's field by
applying a delta equal to its negation: `reset_balance` is
`update_balance` at `-(get_balance)`, leaving the balance 0 and the
holdings untouched, and symmetrically for `reset_holdings`. -/
theorem reset_correct (l : Ledger) (u : UserId) :
    reset_balance l u = update_balance l u (-(get_balance l u)) ∧
    get_balance (reset_balance l u) u = 0 ∧
    get_holdings (reset_balance l u) u = get_holdings l u ∧
    reset_holdings l u = update_holdings l u (-(get_holdings l u)) ∧
    get_holdings (reset_holdings l u) u = 0 ∧
    get_balance (reset_holdings l u) u = get_balance l u := by
  refine ⟨rfl, ?_, ?_, rfl, ?_, ?_⟩
  · show get_balance (update_balance l u (-(get_balance l u))) u = 0
    rw [get_balance_update_balance_self,
      show get_balance l u + -(get_balance l u) = 0 by ring,
      max_self, round2_zero]
  · exact get_holdings_update_balance l u _ u
  · show get_holdings (update_holdings l u (-(get_holdings l u))) u = 0
    rw [get_holdings_update_holdings_self,
      show get_holdings l u + -(get_holdings l u) = 0 by ring,
      max_self, round2_zero]
  · exact get_balance_update_holdings l u _ u

/-- C6.  On the window of up to 40 valid (non-null) prices in descending
timestamp order, the engine's trend is 0 when there are fewer than 2 valid
samples or the oldest (last) one is zero, and `(newest - oldest) / oldest`
otherwise, with newest the first and oldest the last element. -/
theorem recent_trend_correct (data : List (Option ℚ))
    (_hlen : data.length ≤ 40) :
    ((validPrices data).length < 2 ∨ (validPrices data).getLastD 0 = 0 →
      recent_trend (validPrices data) = 0) ∧
    (2 ≤ (validPrices data).length → (validPrices data).getLastD 0 ≠ 0 →
      recent_trend (validPrices data) =
        ((validPrices data).headD 0 - (validPrices data).getLastD 0) /
          (validPrices data).getLastD 0) := by
  constructor
  · intro h
    unfold recent_trend
    rw [if_pos h]
  · intro h2 h0
    unfold recent_trend
    rw [if_neg (not_or.mpr ⟨not_lt.mpr h2, h0⟩)]

/-- Witness for C6: the window `[4, null, 2, 1]` has valid prices
`[4, 2, 1]` and trend `(4 - 1) / 1 = 3`. -/
theorem recent_trend_correct_witness :
    ([some 4, none, some 2, some 1] : List (Option ℚ)).length ≤ 40 ∧
    2 ≤ (validPrices [some 4, none, some 2, some 1]).length ∧
    (validPrices ([some 4, none, some 2, some 1] : List (Option ℚ))).getLastD 0 ≠ 0 ∧
    recent_trend (validPrices [some 4, none, some 2, some 1]) =
      ((validPrices ([some 4, none, some 2, some 1] : List (Option ℚ))).headD 0 -
          (validPrices ([some 4, none, some 2, some 1] : List (Option ℚ))).getLastD 0) /
        (validPrices ([some 4, none, some 2, some 1] : List (Option ℚ))).getLastD 0 :=
  ⟨by decide, by decide, by decide,
    (recent_trend_correct [some 4, none, some 2, some 1] (by decide)).2
      (by decide) (by decide)⟩

/-- Counterexample to C5 as stated: at previous price 0.05 (≥ 0.01) and
adjustment 0.10 (already within the clamp), the tick produces 0.06 — a
relative change of 20%, exceeding the claimed 10% bound — and 0.06 is not
the 0.01 floor, so the floor-clamp exception does not apply. -/
theorem tick_bound_cex :
    (1 / 100 : ℚ) ≤ 1 / 20 ∧
    clampAdj (1 / 10) = 1 / 10 ∧
    tickPrice (1 / 20) (1 / 10) = 3 / 50 ∧
    tickPrice (1 / 20) (1 / 10) ≠ 1 / 100 ∧
    ¬(|tickPrice (1 / 20) (1 / 10) - 1 / 20| / (1 / 20) ≤ 1 / 10) := by
  have h : tickPrice (1 / 20) (1 / 10) = 3 / 50 := by
    norm_num [tickPrice, clampAdj, round2, round_eq]
  refine ⟨by norm_num, by norm_num [clampAdj], h, by rw [h]; norm_num, ?_⟩
  rw [h, show (3 : ℚ) / 50 - 1 / 20 = 1 / 100 by norm_num,
    abs_of_pos (show (0 : ℚ) < 1 / 100 by norm_num)]
  norm_num

/-- C5 amended.  Every tick's price is at least 0.01; and unless the 0.01
floor clamp fired, the new price differs from the previous one by at most
10% of it plus the 2-decimal rounding error of at most 0.005:
`|p' - p| ≤ p/10 + 1/200`.  (The claim's bound `|p' - p|/p ≤ 0.10` fails
for small prices, where the rounding error exceeds 10%.) -/
theorem tick_bound (p a : ℚ) (hp : 1 / 100 ≤ p) :
    1 / 100 ≤ tickPrice p a ∧
    (tickPrice p a ≠ 1 / 100 →
      |tickPrice p a - p| ≤ p / 10 + 1 / 200) := by
  refine ⟨le_max_right _ _, ?_⟩
  intro hne
  have hclamp : |clampAdj a| ≤ 1 / 10 := by
    rw [abs_le]
    exact ⟨le_max_right _ _, max_le (min_le_right _ _) (by norm_num)⟩
  have hp0 : (0 : ℚ) < p := lt_of_lt_of_le (by norm_num) hp
  have heq : tickPrice p a = round2 (p * (1 + clampAdj a)) := by
    unfold tickPrice at hne ⊢
    rcases le_or_lt (round2 (p * (1 + clampAdj a))) (1 / 100) with h | h
    · exact absurd (max_eq_right h) hne
    · exact max_eq_left (le_of_lt h)
  rw [heq]
  have h1 : |round2 (p * (1 + clampAdj a)) - p * (1 + clampAdj a)| ≤ 1 / 200 :=
    abs_round2_sub _
  have h2 : |p * (1 + clampAdj a) - p| ≤ p / 10 := by
    rw [show p * (1 + clampAdj a) - p = p * clampAdj a by ring, abs_mul,
      abs_of_pos hp0]
    calc p * |clampAdj a| ≤ p * (1 / 10) :=
          mul_le_mul_of_nonneg_left hclamp (le_of_lt hp0)
      _ = p / 10 := by ring
  calc |round2 (p * (1 + clampAdj a)) - p|
      ≤ |round2 (p * (1 + clampAdj a)) - p * (1 + clampAdj a)| +
        |p * (1 + clampAdj a) - p| := abs_sub_le _ _ _
    _ ≤ 1 / 200 + p / 10 := add_le_add h1 h2
    _ = p / 10 + 1 / 200 := by ring

/-- Witness for the amended C5: at price 500 with raw adjustment 0 the
tick stays at 500, within the bound. -/
theorem tick_bound_witness :
    (1 / 100 : ℚ) ≤ 500 ∧
    (1 / 100 : ℚ) ≤ tickPrice 500 0 ∧
    tickPrice 500 0 ≠ 1 / 100 ∧
    |tickPrice 500 0 - 500| ≤ 500 / 10 + 1 / 200 :=
  ⟨by norm_num, (tick_bound 500 0 (by norm_num)).1,
    by norm_num [tickPrice, clampAdj, round2, round_eq],
    (tick_bound 500 0 (by norm_num)).2
      (by norm_num [tickPrice, clampAdj, round2, round_eq])⟩

end FireBet
